import Mathlib

/-!
Verification of the descriptor normalization and cross-validation pipeline of
the multitask QM GNN repository. The Python source is shallowly embedded:
pandas tables become lists of rows, numpy vectors become lists of rationals,
sklearn scalers become records of their fitted parameters, and the RDKit
molecule resolver (an external library) becomes an abstract resolver function
from structure strings to molecules. Floating point arithmetic is idealized
as exact rational (or real) arithmetic throughout.
-/

namespace QMGNN

/-! ### sklearn MinMaxScaler

Embeds sklearn.preprocessing.MinMaxScaler with default feature range (0, 1):
fit records the pooled data minimum and maximum, transform maps x to
(x - min) / (max - min), where a zero range is replaced by 1 by
sklearn handle zeros in scale. Fitting an empty data set is an sklearn
error; the embedding returns the degenerate scaler with min = max = 0 there. -/

structure MinMaxScalerP where
  dataMin : ℚ
  dataMax : ℚ
deriving DecidableEq, Repr, Inhabited

def fitMinMax (data : List ℚ) : MinMaxScalerP :=
  ⟨data.foldl min (data.headD 0), data.foldl max (data.headD 0)⟩

def MinMaxScalerP.transform (s : MinMaxScalerP) (x : ℚ) : ℚ :=
  if s.dataMax - s.dataMin = 0 then x - s.dataMin
  else (x - s.dataMin) / (s.dataMax - s.dataMin)

/-! ### Fold boundaries (src/cross_val.py line 94)

k_fold_arange = np.linspace(0, len(df), args.k_fold + 1).astype(int):
boundary i of a k-fold split of n rows is floor(i * n / k), idealized here
as exact natural division (numpy computes the linspace in float64). -/

def k_fold_arange (n k : ℕ) : ℕ → ℕ := fun i => i * n / k

/-- Modelled from the spec: the body of split_data_cross_val is imported from
utils and is not under src (only its call site in src/cross_val.py lines
116 to 128 is). Per the spec, with no sub-sampling and no external held-out
test set, the test set of fold i is the contiguous slice of the already
shuffled dataset between boundaries i and i + 1 of k_fold_arange; this
definition gives its set of row indices. -/
def testFoldIds (n k i : ℕ) : Finset ℕ :=
  Finset.Ico (k_fold_arange n k i) (k_fold_arange n k (i + 1))

lemma k_fold_arange_mono (n k : ℕ) : Monotone (k_fold_arange n k) := by
  intro a b hab
  exact Nat.div_le_div_right (Nat.mul_le_mul_right n hab)

lemma k_fold_arange_zero (n k : ℕ) : k_fold_arange n k 0 = 0 := by
  simp [k_fold_arange]

lemma k_fold_arange_last (n k : ℕ) (hk : 0 < k) : k_fold_arange n k k = n := by
  simp [k_fold_arange, Nat.mul_comm k n, Nat.mul_div_cancel n hk]

/-- Consecutive Ico blocks of a monotone boundary function tile an interval. -/
lemma biUnion_Ico_boundaries (f : ℕ → ℕ) (hf : Monotone f) (m : ℕ) :
    (Finset.range m).biUnion (fun i => Finset.Ico (f i) (f (i + 1)))
      = Finset.Ico (f 0) (f m) := by
  induction m with
  | zero => simp
  | succ m ih =>
      rw [Finset.range_succ, Finset.biUnion_insert, ih, Finset.union_comm,
        Finset.Ico_union_Ico_eq_Ico (hf (Nat.zero_le m)) (hf (Nat.le_succ m))]

/-! ### Molecule structure resolver

The Python code resolves a structure string with the external RDKit library
(Chem.MolFromSmiles followed by Chem.AddHs). The resolver is embedded as an
abstract function from structure strings to molecules; a molecule records
its atom symbols (explicit hydrogens included, in canonical order) and its
bond list (bond index i joins the recorded atom index pair). Well-formedness
(every bond joins two distinct valid atom indices) is an RDKit invariant and
appears as a hypothesis where needed. -/

structure Molecule where
  atomSymbols : List String
  bonds : List (ℕ × ℕ)
deriving DecidableEq, Repr, Inhabited

def Molecule.numAtoms (m : Molecule) : ℕ := m.atomSymbols.length

def Molecule.WF (m : Molecule) : Prop :=
  ∀ b ∈ m.bonds, b.1 < m.numAtoms ∧ b.2 < m.numAtoms ∧ b.1 ≠ b.2

instance (m : Molecule) : Decidable m.WF := by
  unfold Molecule.WF; infer_instance

/-- get_atoms(smiles): atom symbols of the resolved molecule with explicit
hydrogens (src/process_descs/post_process.py lines 106 to 113). -/
def get_atoms (resolve : String → Molecule) (smiles : String) : List String :=
  (resolve smiles).atomSymbols

/-- A numpy square matrix of recorded side, with a total entry function
(np.zeros gives entries outside the shape no meaning; they are 0 here). -/
structure SqMatrix where
  size : ℕ
  entry : ℕ → ℕ → ℚ

/-- One assignment step of the bond_to_matrix loop: write value bp at both
(begin, end) and (end, begin) of bond b. -/
def bondWrite (M : ℕ → ℕ → ℚ) (b : ℕ × ℕ) (bp : ℚ) : ℕ → ℕ → ℚ :=
  fun p q => if p = b.1 ∧ q = b.2 ∨ p = b.2 ∧ q = b.1 then bp else M p q

/-- bond_to_matrix(smiles, bond_vector)
(src/process_descs/post_process.py lines 93 to 103): start from the zero
matrix of side numAtoms and, for each index i below the bond vector length,
symmetrically write bond_vector[i] at the atom pair of bond i. The Python
loop errors when the vector is longer than the bond list; the zip embedding
is faithful whenever the vector is at most as long, which its callers
guarantee with equal lengths. -/
def bond_to_matrix (resolve : String → Molecule) (smiles : String)
    (bond_vector : List ℚ) : SqMatrix :=
  ⟨(resolve smiles).numAtoms,
    (((resolve smiles).bonds.zip bond_vector).foldl
      (fun M e => bondWrite M e.1 e.2) (fun _ _ => 0))⟩

/-! ### Raw descriptor validation (check_chemprop_out)

The raw atom descriptor table before validation: each value may be missing
(NaN), embedded as Option. -/

def hasNaN (xs : List (Option ℚ)) : Bool := xs.any (fun x => x.isNone)

structure RawRow where
  smiles : String
  partial_charge : List (Option ℚ)
  fukui_neu : List (Option ℚ)
  fukui_elec : List (Option ℚ)
  NMR : List (Option ℚ)
  bond_order : List (Option ℚ)
  bond_length : List (Option ℚ)
deriving DecidableEq, Repr, Inhabited

/-- The inner loop of check_chemprop_out over the six required columns: the
row is flagged as soon as one required column holds a NaN (the break makes
later columns irrelevant, so the flag is the disjunction). -/
def RawRow.invalidRow (r : RawRow) : Bool :=
  hasNaN r.partial_charge || hasNaN r.fukui_neu || hasNaN r.fukui_elec
    || hasNaN r.NMR || hasNaN r.bond_order || hasNaN r.bond_length

/-- check_chemprop_out (src/process_descs/post_process.py lines 12 to 19):
collect, in row order, the smiles of every row with a NaN in a required
column; the break appends each flagged row exactly once. -/
def check_chemprop_out (df : List RawRow) : List String :=
  df.foldl (fun invalid r =>
    if r.invalidRow then invalid ++ [r.smiles] else invalid) []

/-! ### Atom descriptor table and scaler fitting -/

structure QMRow where
  smiles : String
  partial_charge : List ℚ
  fukui_neu : List ℚ
  fukui_elec : List ℚ
  NMR : List ℚ
  bond_order : List ℚ
  bond_length : List ℚ
deriving DecidableEq, Repr, Inhabited

/-- The reference sub-table (post_process.py lines 35 to 38 and 117 to 120):
the rows whose smiles is in train_smiles, or the whole table when no
reference set is given. -/
def refRows {α : Type} (smilesOf : α → String) (df : List α) :
    Option (List String) → List α
  | some t => df.filter (fun r => decide (smilesOf r ∈ t))
  | none => df

/-- The bundle of scalers get_scaler builds: one min-max scaler per plain
column (bond columns included, though their scalers are never applied), and
for the atom-scaled column NMR a dictionary from atom symbol to scaler. -/
structure AtomScalerBundle where
  partial_charge : MinMaxScalerP
  fukui_neu : MinMaxScalerP
  fukui_elec : MinMaxScalerP
  bond_order : MinMaxScalerP
  bond_length : MinMaxScalerP
  NMR : List (String × MinMaxScalerP)
deriving DecidableEq, Repr, Inhabited

/-- get_scaler(df) (post_process.py lines 64 to 90). Plain columns: fit a
min-max scaler on the concatenation of the column over all rows. NMR: pair
the concatenated atom symbols with the concatenated values, group by symbol
(pandas groupby keeps row order within a group; it sorts the group keys, but
only lookup in the resulting dictionary is observable, so first-appearance
key order is used here) and fit one min-max scaler per symbol. -/
def get_scaler (resolve : String → Molecule) (df : List QMRow) :
    AtomScalerBundle :=
  let atoms := (df.map (fun r => get_atoms resolve r.smiles)).flatten
  let nmrData := (df.map (fun r => r.NMR)).flatten
  ⟨fitMinMax (df.map (fun r => r.partial_charge)).flatten,
   fitMinMax (df.map (fun r => r.fukui_neu)).flatten,
   fitMinMax (df.map (fun r => r.fukui_elec)).flatten,
   fitMinMax (df.map (fun r => r.bond_order)).flatten,
   fitMinMax (df.map (fun r => r.bond_length)).flatten,
   atoms.dedup.map (fun a =>
     (a, fitMinMax ((atoms.zip nmrData).filterMap
       (fun p => if p.1 = a then some p.2 else none))))⟩

/-- Lines 35 to 41 of post_process.py: the bundle fitted inside
min_max_normalize_atom_descs when none is supplied, from the reference
sub-table only. -/
def atomFitScalers (resolve : String → Molecule) (df : List QMRow)
    (train_smiles : Option (List String)) : AtomScalerBundle :=
  get_scaler resolve (refRows QMRow.smiles df train_smiles)

/-- min_max_by_atom(atoms, data, scaler) (post_process.py lines 30 to 32):
transform each value with the scaler of its atom symbol. A symbol missing
from the dictionary raises a KeyError in Python (the fatal unseen-atom-type
error of the spec), embedded as none. -/
def min_max_by_atom (atoms : List String) (data : List ℚ)
    (scaler : List (String × MinMaxScalerP)) : Option (List ℚ) :=
  (atoms.zip data).mapM (fun p =>
    (scaler.lookup p.1).map (fun s => s.transform p.2))

/-! ### The normalized atom descriptor table -/

structure NormRow where
  smiles : String
  partial_charge : List ℚ
  fukui_neu : List ℚ
  fukui_elec : List ℚ
  NMR : List ℚ
  bond_order_matrix : SqMatrix
  bond_length_matrix : SqMatrix

/-- One output row of min_max_normalize_atom_descs (post_process.py lines
47 to 59), given the already transformed NMR values of the row. Plain
columns are transformed with their column scaler; both matrix columns are
built from the bond_order vector, because line 56 passes the literal column
name bond_order for both (the lambda reads x with the hard-coded key, not
the loop variable column). -/
def normalizedRow (resolve : String → Molecule) (scs : AtomScalerBundle)
    (r : QMRow) (nmr : List ℚ) : NormRow :=
  ⟨r.smiles,
   r.partial_charge.map scs.partial_charge.transform,
   r.fukui_neu.map scs.fukui_neu.transform,
   r.fukui_elec.map scs.fukui_elec.transform,
   nmr,
   bond_to_matrix resolve r.smiles r.bond_order,
   bond_to_matrix resolve r.smiles r.bond_order⟩

/-- min_max_normalize_atom_descs(df, scalers, train_smiles) (post_process.py
lines 34 to 61): fit a bundle on the reference sub-table unless one is
supplied, transform every row of the full table, drop the raw bond columns
and index by smiles. A KeyError in the NMR pass aborts the call (none). -/
def min_max_normalize_atom_descs (resolve : String → Molecule)
    (df : List QMRow) (scalers : Option AtomScalerBundle)
    (train_smiles : Option (List String)) :
    Option (List NormRow × AtomScalerBundle) :=
  (df.mapM (fun r =>
      min_max_by_atom (get_atoms resolve r.smiles) r.NMR
        (scalers.getD (atomFitScalers resolve df train_smiles)).NMR)).map
    (fun nmrCol => ((df.zip nmrCol).map
      (fun e => normalizedRow resolve
        (scalers.getD (atomFitScalers resolve df train_smiles)) e.1 e.2),
      scalers.getD (atomFitScalers resolve df train_smiles)))

/-! ### Reaction descriptor table (min_max_normalize_reaction_descs)

The reaction table has a smiles column and nc scalar descriptor columns,
embedded positionally: row r holds the values of the nc columns in descs. -/

structure StandardScalerP where
  mean : ℚ
  var : ℚ
deriving DecidableEq, Repr, Inhabited

/-- sklearn StandardScaler fit: record the mean and the population variance
of the data. Fitting an empty data set is an sklearn error; the embedding
returns the degenerate scaler there. -/
def fitStd (data : List ℚ) : StandardScalerP :=
  ⟨data.sum / data.length,
   (data.map (fun x => (x - data.sum / data.length) ^ 2)).sum / data.length⟩

/-- The stored scale of a StandardScaler: the standard deviation, with a
zero value replaced by 1 by sklearn handle zeros in scale. -/
noncomputable def StandardScalerP.scale (s : StandardScalerP) : ℝ :=
  if Real.sqrt s.var = 0 then 1 else Real.sqrt s.var

/-- sklearn StandardScaler transform: center then divide by the scale. -/
noncomputable def StandardScalerP.transform (s : StandardScalerP) (x : ℚ) :
    ℝ :=
  ((x : ℝ) - (s.mean : ℝ)) / s.scale

structure ReactionRow where
  smiles : String
  descs : List ℚ
deriving DecidableEq, Repr, Inhabited

structure ReactionRowR where
  smiles : String
  descs : List ℝ

/-- Lines 122 to 130 of post_process.py: one StandardScaler per descriptor
column, fitted on the reference rows of that column. -/
def reactionFitScalers (nc : ℕ) (ref : List ReactionRow) :
    List StandardScalerP :=
  (List.range nc).map (fun j => fitStd (ref.map (fun r => r.descs.getD j 0)))

/-- min_max_normalize_reaction_descs(df, scalers, train_smiles)
(post_process.py lines 116 to 137): fit one standard scaler per column on
the reference sub-table unless a bundle is supplied, then transform every
column of every row with its column scaler. The positional embedding
assumes a supplied bundle covers the nc columns, as the keyed Python
dictionary must to avoid a KeyError. -/
noncomputable def min_max_normalize_reaction_descs (nc : ℕ)
    (df : List ReactionRow) (scalers : Option (List StandardScalerP))
    (train_smiles : Option (List String)) :
    List ReactionRowR × List StandardScalerP :=
  let scs := scalers.getD
    (reactionFitScalers nc (refRows ReactionRow.smiles df train_smiles))
  (df.map (fun r =>
    ⟨r.smiles, (List.range nc).map (fun j =>
      (scs.getD j default).transform (r.descs.getD j 0))⟩), scs)

/-! ### Cross-validation driver metrics (src/cross_val.py lines 97 to 277)

The driver loop over folds: for each fold the ensemble member predictions
are averaged, the fold metrics are computed against ground truth and
appended (one value per fold per metric), and at the end each metric list
is averaged. The predictions themselves come from the external model; a
fold contributes its list of de-normalized member prediction vectors and
the ground-truth vectors. -/

/-- Lines 231 to 237 of cross_val.py: the ensemble prediction is
np.sum(member predictions, axis=0) divided by the member count, elementwise
over vectors of length n. -/
def ensembleMean (n : ℕ) (preds : List (List ℚ)) : List ℚ :=
  (List.range n).map (fun idx =>
    (preds.map (fun v => v.getD idx 0)).sum / preds.length)

/-- Modelled from the spec: the evaluate function is imported from utils
and is not under src (only its call site at cross_val.py lines 248 to 259
is); per the spec it computes the root mean squared error of the
predictions against ground truth. -/
noncomputable def rmse (pred truth : List ℚ) : ℝ :=
  Real.sqrt
    (((pred.zip truth).map (fun p => ((p.1 - p.2 : ℚ) : ℝ) ^ 2)).sum
      / (pred.length : ℝ))

/-- Modelled from the spec: the mean absolute error of evaluate, likewise
imported from utils and not under src. -/
def mae (pred truth : List ℚ) : ℚ :=
  ((pred.zip truth).map (fun p => |p.1 - p.2|)).sum / pred.length

/-- What one fold feeds the metric accumulation: the member prediction
vectors for both targets and the ground truth vectors. -/
structure FoldData where
  predsAE : List (List ℚ)
  predsRE : List (List ℚ)
  trueAE : List ℚ
  trueRE : List ℚ
deriving Inhabited

/-- The four metric lists the driver accumulates (cross_val.py lines 97,
98, 261 to 264): one RMSE and one MAE per fold per target, in fold order,
each computed on the ensemble mean of that fold. -/
noncomputable def cross_val_metrics (n : ℕ) (folds : List FoldData) :
    List ℝ × List ℝ × List ℚ × List ℚ :=
  (folds.map (fun f => rmse (ensembleMean n f.predsAE) f.trueAE),
   folds.map (fun f => rmse (ensembleMean n f.predsRE) f.trueRE),
   folds.map (fun f => mae (ensembleMean n f.predsAE) f.trueAE),
   folds.map (fun f => mae (ensembleMean n f.predsRE) f.trueRE))

noncomputable def meanR (l : List ℝ) : ℝ := l.sum / l.length

def meanQ (l : List ℚ) : ℚ := l.sum / l.length

/-- The final report (cross_val.py lines 272 to 277): np.mean of each of
the four metric lists. -/
noncomputable def final_report (n : ℕ) (folds : List FoldData) :
    ℝ × ℝ × ℚ × ℚ :=
  (meanR (cross_val_metrics n folds).1,
   meanR (cross_val_metrics n folds).2.1,
   meanQ (cross_val_metrics n folds).2.2.1,
   meanQ (cross_val_metrics n folds).2.2.2)

/-! ## Theorems -/

lemma testFoldIds_disjoint_of_lt (n k i j : ℕ) (h : i < j) :
    Disjoint (testFoldIds n k i) (testFoldIds n k j) := by
  rw [Finset.disjoint_left]
  intro x hx hx2
  rw [testFoldIds, Finset.mem_Ico] at hx hx2
  have h1 : k_fold_arange n k (i + 1) ≤ k_fold_arange n k j :=
    k_fold_arange_mono n k h
  omega

/-- C1: for every dataset size n and fold count k, the fold splitter cuts
the shuffled dataset at the boundaries of k_fold_arange into k contiguous
test index ranges; test ranges of distinct folds are disjoint, and with no
sub-sampling and no external test set the k test ranges together are
exactly the full index range of the dataset. -/
theorem fold_split_partition (n k i j : ℕ) (hi : i < k) (hj : j < k)
    (hij : i ≠ j) :
    Disjoint (testFoldIds n k i) (testFoldIds n k j) ∧
      (Finset.range k).biUnion (testFoldIds n k) = Finset.range n := by
  refine ⟨?_, ?_⟩
  · rcases hij.lt_or_lt with h | h
    · exact testFoldIds_disjoint_of_lt n k i j h
    · exact (testFoldIds_disjoint_of_lt n k j i h).symm
  · have hk : 0 < k := Nat.lt_of_le_of_lt (Nat.zero_le i) hi
    have hb := biUnion_Ico_boundaries (k_fold_arange n k)
      (k_fold_arange_mono n k) k
    rw [show (Finset.range k).biUnion (testFoldIds n k)
        = (Finset.range k).biUnion
            (fun i => Finset.Ico (k_fold_arange n k i) (k_fold_arange n k (i + 1)))
      from rfl, hb, k_fold_arange_zero, k_fold_arange_last n k hk,
      Finset.range_eq_Ico]

/-- Witness for C1 at n = 7, k = 3, folds 0 and 1. -/
theorem fold_split_partition_witness :
    Disjoint (testFoldIds 7 3 0) (testFoldIds 7 3 1) ∧
      (Finset.range 3).biUnion (testFoldIds 7 3) = Finset.range 7 :=
  fold_split_partition 7 3 0 1 (by decide) (by decide) (by decide)

/-- C6: a min-max scaler fitted on reference data with pooled minimum a and
pooled maximum b, a < b, transforms a to 0 and b to 1 (exact arithmetic). -/
theorem min_max_round_trip (data : List ℚ) (a b : ℚ)
    (hmin : (fitMinMax data).dataMin = a)
    (hmax : (fitMinMax data).dataMax = b) (hab : a < b) :
    (fitMinMax data).transform a = 0 ∧ (fitMinMax data).transform b = 1 := by
  have hne : b - a ≠ 0 := sub_ne_zero_of_ne hab.ne.symm
  refine ⟨?_, ?_⟩ <;> simp only [MinMaxScalerP.transform, hmin, hmax,
    if_neg hne]
  · simp
  · exact div_self hne

/-- Witness for C6: fitting on the data 1, 3 gives min 1 and max 3. -/
theorem min_max_round_trip_witness :
    (fitMinMax [1, 3]).transform 1 = 0 ∧ (fitMinMax [1, 3]).transform 3 = 1 :=
  min_max_round_trip [1, 3] 1 3 (by decide) (by decide) (by decide)

lemma check_chemprop_out_foldl (df : List RawRow) (acc : List String) :
    df.foldl (fun invalid r =>
        if r.invalidRow then invalid ++ [r.smiles] else invalid) acc
      = acc ++ (df.filter RawRow.invalidRow).map RawRow.smiles := by
  induction df generalizing acc with
  | nil => simp
  | cons r rest ih =>
      by_cases h : r.invalidRow <;> simp [List.filter_cons, h, ih]

/-- C9: a record is flagged invalid by check_chemprop_out exactly when at
least one of its six required descriptor fields holds a NaN; the reported
list is the smiles of the invalid rows in row order, so each invalid record
is reported exactly once and valid records are not reported. -/
theorem check_chemprop_out_spec (df : List RawRow) :
    check_chemprop_out df = (df.filter RawRow.invalidRow).map RawRow.smiles
      ∧ (∀ s, s ∈ check_chemprop_out df
          ↔ ∃ r ∈ df, r.invalidRow = true ∧ r.smiles = s)
      ∧ (check_chemprop_out df).length
          = (df.filter RawRow.invalidRow).length
      ∧ (∀ r : RawRow, r.invalidRow = true
          ↔ (hasNaN r.partial_charge = true ∨ hasNaN r.fukui_neu = true
            ∨ hasNaN r.fukui_elec = true ∨ hasNaN r.NMR = true
            ∨ hasNaN r.bond_order = true ∨ hasNaN r.bond_length = true)) := by
  have heq : check_chemprop_out df
      = (df.filter RawRow.invalidRow).map RawRow.smiles :=
    check_chemprop_out_foldl df []
  refine ⟨heq, ?_, ?_, ?_⟩
  · intro s
    rw [heq]
    simp [List.mem_map, List.mem_filter]
    constructor
    · rintro ⟨r, ⟨hr, hinv⟩, hs⟩; exact ⟨r, hr, hinv, hs⟩
    · rintro ⟨r, hr, hinv, hs⟩; exact ⟨r, ⟨hr, hinv⟩, hs⟩
  · rw [heq, List.length_map]
  · intro r
    simp [RawRow.invalidRow, Bool.or_eq_true, or_assoc]

lemma bondWrite_symm (M : ℕ → ℕ → ℚ) (b : ℕ × ℕ) (bp : ℚ)
    (h : ∀ p q, M p q = M q p) (p q : ℕ) :
    bondWrite M b bp p q = bondWrite M b bp q p := by
  unfold bondWrite
  rcases Decidable.em (p = b.1 ∧ q = b.2 ∨ p = b.2 ∧ q = b.1) with hc | hc
  · rw [if_pos hc, if_pos (by tauto)]
  · rw [if_neg hc, if_neg (by tauto), h]

lemma foldl_bondWrite_symm (l : List ((ℕ × ℕ) × ℚ)) (M : ℕ → ℕ → ℚ)
    (h : ∀ p q, M p q = M q p) :
    ∀ p q, l.foldl (fun M e => bondWrite M e.1 e.2) M p q
      = l.foldl (fun M e => bondWrite M e.1 e.2) M q p := by
  induction l generalizing M with
  | nil => exact h
  | cons e rest ih =>
      exact ih (bondWrite M e.1 e.2) (bondWrite_symm M e.1 e.2 h)

lemma bondWrite_skip (M : ℕ → ℕ → ℚ) (b : ℕ × ℕ) (bp : ℚ) (p q : ℕ)
    (h1 : b ≠ (p, q)) (h2 : b ≠ (q, p)) :
    bondWrite M b bp p q = M p q := by
  unfold bondWrite
  rw [if_neg]
  rintro (⟨hp, hq⟩ | ⟨hp, hq⟩)
  · exact h1 (Prod.ext hp.symm hq.symm)
  · exact h2 (Prod.ext hq.symm hp.symm)

lemma foldl_bondWrite_nonbond (l : List ((ℕ × ℕ) × ℚ)) (M : ℕ → ℕ → ℚ)
    (p q : ℕ) (hpq : ∀ e ∈ l, e.1 ≠ (p, q) ∧ e.1 ≠ (q, p)) :
    l.foldl (fun M e => bondWrite M e.1 e.2) M p q = M p q := by
  induction l generalizing M with
  | nil => rfl
  | cons e rest ih =>
      have he := hpq e (List.mem_cons_self e rest)
      rw [List.foldl_cons,
        ih _ (fun e hm => hpq e (List.mem_cons_of_mem _ hm)),
        bondWrite_skip M e.1 e.2 p q he.1 he.2]

lemma foldl_bondWrite_diag (l : List ((ℕ × ℕ) × ℚ)) (M : ℕ → ℕ → ℚ)
    (hne : ∀ e ∈ l, e.1.1 ≠ e.1.2) (p : ℕ) :
    l.foldl (fun M e => bondWrite M e.1 e.2) M p p = M p p := by
  refine foldl_bondWrite_nonbond l M p p (fun e he => ?_)
  have h := hne e he
  constructor <;> intro hc <;> rw [hc] at h <;> exact h rfl

/-- C3: for a resolvable structure and a per-bond vector of length equal to
the bond count, the matrix bond_to_matrix builds is square of side the atom
count with explicit hydrogens, symmetric, zero on the diagonal, and zero at
every atom pair not joined by a bond. -/
theorem bond_to_matrix_props (resolve : String → Molecule) (s : String)
    (bv : List ℚ) (hwf : (resolve s).WF)
    (hlen : bv.length = (resolve s).bonds.length) :
    (bond_to_matrix resolve s bv).size = (resolve s).numAtoms
      ∧ (∀ p q, (bond_to_matrix resolve s bv).entry p q
          = (bond_to_matrix resolve s bv).entry q p)
      ∧ (∀ p, (bond_to_matrix resolve s bv).entry p p = 0)
      ∧ (∀ p q, (p, q) ∉ (resolve s).bonds → (q, p) ∉ (resolve s).bonds →
          (bond_to_matrix resolve s bv).entry p q = 0) := by
  refine ⟨rfl, ?_, ?_, ?_⟩
  · intro p q
    exact foldl_bondWrite_symm ((resolve s).bonds.zip bv) (fun _ _ => 0)
      (fun _ _ => rfl) p q
  · intro p
    exact foldl_bondWrite_diag _ _
      (fun e he => ((hwf e.1 (List.of_mem_zip he).1).2.2)) p
  · intro p q hpq hqp
    refine foldl_bondWrite_nonbond _ _ p q (fun e he => ⟨?_, ?_⟩) <;>
      intro hc <;> have hmem := (List.of_mem_zip he).1
    · exact hpq (hc ▸ hmem)
    · exact hqp (hc ▸ hmem)

def molCOH : Molecule := ⟨["C", "O", "H"], [(0, 1), (1, 2)]⟩

def resolveCOH : String → Molecule := fun _ => molCOH

/-- Witness for C3 on a three-atom, two-bond molecule. -/
theorem bond_to_matrix_props_witness :
    (bond_to_matrix resolveCOH "CO" [2, 1]).size = (resolveCOH "CO").numAtoms
      ∧ (∀ p q, (bond_to_matrix resolveCOH "CO" [2, 1]).entry p q
          = (bond_to_matrix resolveCOH "CO" [2, 1]).entry q p)
      ∧ (∀ p, (bond_to_matrix resolveCOH "CO" [2, 1]).entry p p = 0)
      ∧ (∀ p q, (p, q) ∉ (resolveCOH "CO").bonds →
          (q, p) ∉ (resolveCOH "CO").bonds →
          (bond_to_matrix resolveCOH "CO" [2, 1]).entry p q = 0) :=
  bond_to_matrix_props resolveCOH "CO" [2, 1] (by decide) (by decide)

lemma refRows_append_outside {α : Type} (smilesOf : α → String)
    (df extra : List α) (t : List String)
    (h : ∀ r ∈ extra, smilesOf r ∉ t) :
    refRows smilesOf (df ++ extra) (some t) = refRows smilesOf df (some t) := by
  show List.filter _ (df ++ extra) = List.filter _ df
  have h2 : List.filter (fun r => decide (smilesOf r ∈ t)) extra = [] := by
    rw [List.filter_eq_nil_iff]
    intro r hr
    simp [h r hr]
  rw [List.filter_append, h2, List.append_nil]

/-- C2: the scaler bundles fitted by the two normalizers from a training
reference set are identical whether or not rows whose structure string lies
outside the reference set are present in the table passed in: fitting reads
only the reference rows. -/
theorem scaler_fit_no_leakage (resolve : String → Molecule)
    (df extra : List QMRow) (nc : ℕ) (rdf rextra : List ReactionRow)
    (t : List String) (hx : ∀ r ∈ extra, r.smiles ∉ t)
    (hrx : ∀ r ∈ rextra, r.smiles ∉ t) :
    atomFitScalers resolve (df ++ extra) (some t)
        = atomFitScalers resolve df (some t)
      ∧ reactionFitScalers nc (refRows ReactionRow.smiles (rdf ++ rextra) (some t))
        = reactionFitScalers nc (refRows ReactionRow.smiles rdf (some t)) := by
  constructor
  · unfold atomFitScalers
    rw [refRows_append_outside QMRow.smiles df extra t hx]
  · rw [refRows_append_outside ReactionRow.smiles rdf rextra t hrx]

def rowTrainA : QMRow := ⟨"C", [1], [1], [1], [5], [1], [1]⟩

def rowTestB : QMRow := ⟨"N", [7], [7], [7], [9], [7], [7]⟩

/-- Witness for C2: the test row with smiles N is outside the reference
set, so its presence does not change either fitted bundle. -/
theorem scaler_fit_no_leakage_witness :
    atomFitScalers resolveCOH ([rowTrainA] ++ [rowTestB]) (some ["C"])
        = atomFitScalers resolveCOH [rowTrainA] (some ["C"])
      ∧ reactionFitScalers 1
          (refRows ReactionRow.smiles ([⟨"C", [2]⟩] ++ [⟨"N", [8]⟩]) (some ["C"]))
        = reactionFitScalers 1
          (refRows ReactionRow.smiles [⟨"C", [2]⟩] (some ["C"])) :=
  scaler_fit_no_leakage resolveCOH [rowTrainA] [rowTestB] 1
    [⟨"C", [2]⟩] [⟨"N", [8]⟩] ["C"] (by decide) (by decide)

lemma mapM_eq_none_of_mem {α β : Type} (f : α → Option β) (l : List α)
    (x : α) (hx : x ∈ l) (hfx : f x = none) : l.mapM f = none := by
  rw [← List.mapM'_eq_mapM]
  induction l with
  | nil => cases hx
  | cons a rest ih =>
      rcases List.mem_cons.mp hx with h | h
      · subst h
        simp [List.mapM'_cons, hfx]
      · cases hfa : f a <;> simp [List.mapM'_cons, hfa, ih h]

lemma zip_mem_of_mem_left {α β : Type} (l1 : List α) (l2 : List β) (x : α)
    (hx : x ∈ l1) (hlen : l1.length = l2.length) :
    ∃ y, (x, y) ∈ l1.zip l2 := by
  induction l1 generalizing l2 with
  | nil => cases hx
  | cons a t ih =>
      cases l2 with
      | nil => simp at hlen
      | cons b t2 =>
          rcases List.mem_cons.mp hx with h | h
          · subst h
            exact ⟨b, by simp⟩
          · obtain ⟨y, hy⟩ := ih t2 h (by simpa using hlen)
            exact ⟨y, by simpa using Or.inr hy⟩

/-- C5: when the data holds an atom whose element symbol has no fitted
scaler in the bundle, min_max_by_atom fails (the KeyError of the Python
dictionary lookup, the fatal unseen-atom-type error of the spec) instead of
producing any value, and the failure aborts the whole
min_max_normalize_atom_descs call. -/
theorem unseen_atom_type_fatal (atoms : List String) (data : List ℚ)
    (scaler : List (String × MinMaxScalerP)) (a : String) (ha : a ∈ atoms)
    (hlen : atoms.length = data.length) (hnone : scaler.lookup a = none) :
    min_max_by_atom atoms data scaler = none
      ∧ ∀ (resolve : String → Molecule) (df : List QMRow)
          (scalers : Option AtomScalerBundle)
          (train_smiles : Option (List String)) (r : QMRow), r ∈ df →
          get_atoms resolve r.smiles = atoms → r.NMR = data →
          (scalers.getD (atomFitScalers resolve df train_smiles)).NMR = scaler →
          min_max_normalize_atom_descs resolve df scalers train_smiles = none := by
  have hkey : min_max_by_atom atoms data scaler = none := by
    obtain ⟨d, hd⟩ := zip_mem_of_mem_left atoms data a ha hlen
    refine mapM_eq_none_of_mem _ _ (a, d) hd ?_
    simp [hnone]
  refine ⟨hkey, ?_⟩
  intro resolve df scalers train_smiles r hr hat hnmr hsc
  unfold min_max_normalize_atom_descs
  rw [mapM_eq_none_of_mem _ df r hr ?_]
  · rfl
  · show min_max_by_atom (get_atoms resolve r.smiles) r.NMR
      (scalers.getD (atomFitScalers resolve df train_smiles)).NMR = none
    rw [hat, hnmr, hsc]
    exact hkey

/-- Witness for C5: the symbol Se has no scaler in a bundle fitted on
carbon only. -/
theorem unseen_atom_type_fatal_witness :
    min_max_by_atom ["C", "Se"] [1, 2] [("C", ⟨0, 1⟩)] = none
      ∧ ∀ (resolve : String → Molecule) (df : List QMRow)
          (scalers : Option AtomScalerBundle)
          (train_smiles : Option (List String)) (r : QMRow), r ∈ df →
          get_atoms resolve r.smiles = ["C", "Se"] → r.NMR = [1, 2] →
          (scalers.getD (atomFitScalers resolve df train_smiles)).NMR
              = [("C", ⟨0, 1⟩)] →
          min_max_normalize_atom_descs resolve df scalers train_smiles = none :=
  unseen_atom_type_fatal ["C", "Se"] [1, 2] [("C", ⟨0, 1⟩)] "Se"
    (by decide) (by decide) (by decide)

/-- C8: the reaction normalizer fits one standard scaler per descriptor
column from the reaction values of the reference rows only (rows outside
the reference set do not influence the fit), applies the fitted scalers
elementwise to every row of the table, and when a pre-fitted bundle is
supplied it refits nothing and applies the supplied scalers unchanged. -/
theorem reaction_descs_normalization (nc : ℕ)
    (df extra : List ReactionRow) (t : List String)
    (s : List StandardScalerP) (hx : ∀ r ∈ extra, r.smiles ∉ t) :
    (min_max_normalize_reaction_descs nc df none (some t)).2
        = reactionFitScalers nc (refRows ReactionRow.smiles df (some t))
      ∧ (min_max_normalize_reaction_descs nc (df ++ extra) none (some t)).2
        = (min_max_normalize_reaction_descs nc df none (some t)).2
      ∧ (min_max_normalize_reaction_descs nc df none (some t)).1
        = df.map (fun r => ⟨r.smiles, (List.range nc).map (fun j =>
            (((min_max_normalize_reaction_descs nc df none (some t)).2).getD
              j default).transform (r.descs.getD j 0))⟩)
      ∧ (min_max_normalize_reaction_descs nc df (some s) (some t)).2 = s
      ∧ (min_max_normalize_reaction_descs nc df (some s) (some t)).1
        = df.map (fun r => ⟨r.smiles, (List.range nc).map (fun j =>
            (s.getD j default).transform (r.descs.getD j 0))⟩) := by
  refine ⟨rfl, ?_, rfl, rfl, rfl⟩
  show reactionFitScalers nc (refRows ReactionRow.smiles (df ++ extra) (some t))
    = reactionFitScalers nc (refRows ReactionRow.smiles df (some t))
  rw [refRows_append_outside ReactionRow.smiles df extra t hx]

/-- Witness for C8 on a two-row table, one held-out row and one column. -/
theorem reaction_descs_normalization_witness :
    (min_max_normalize_reaction_descs 1 [⟨"C", [2]⟩] none (some ["C"])).2
        = reactionFitScalers 1
            (refRows ReactionRow.smiles [⟨"C", [2]⟩] (some ["C"]))
      ∧ (min_max_normalize_reaction_descs 1 ([⟨"C", [2]⟩] ++ [⟨"N", [8]⟩])
            none (some ["C"])).2
        = (min_max_normalize_reaction_descs 1 [⟨"C", [2]⟩] none (some ["C"])).2
      ∧ (min_max_normalize_reaction_descs 1 [⟨"C", [2]⟩] none (some ["C"])).1
        = ([⟨"C", [2]⟩] : List ReactionRow).map
            (fun r => (⟨r.smiles, (List.range 1).map (fun j =>
              (((min_max_normalize_reaction_descs 1 [⟨"C", [2]⟩] none
                (some ["C"])).2).getD j default).transform
                (r.descs.getD j 0))⟩ : ReactionRowR))
      ∧ (min_max_normalize_reaction_descs 1 [⟨"C", [2]⟩]
            (some [⟨0, 1⟩]) (some ["C"])).2 = [⟨0, 1⟩]
      ∧ (min_max_normalize_reaction_descs 1 [⟨"C", [2]⟩]
            (some [⟨0, 1⟩]) (some ["C"])).1
        = ([⟨"C", [2]⟩] : List ReactionRow).map
            (fun r => (⟨r.smiles, (List.range 1).map (fun j =>
              (([⟨0, 1⟩] : List StandardScalerP).getD j default).transform
                (r.descs.getD j 0))⟩ : ReactionRowR)) :=
  reaction_descs_normalization 1 [⟨"C", [2]⟩] [⟨"N", [8]⟩] ["C"]
    [⟨0, 1⟩] (by decide)

lemma mapM_some_length {α β : Type} (f : α → Option β) (l : List α)
    (l2 : List β) (h : l.mapM f = some l2) : l2.length = l.length := by
  rw [← List.mapM'_eq_mapM] at h
  induction l generalizing l2 with
  | nil =>
      simp only [List.mapM'_nil] at h
      cases h
      rfl
  | cons a rest ih =>
      simp only [List.mapM'_cons] at h
      cases hfa : f a with
      | none => rw [hfa] at h; cases h
      | some b =>
          rw [hfa] at h
          cases hrest : List.mapM' f rest with
          | none => rw [hrest] at h; cases h
          | some bs =>
              rw [hrest] at h
              cases h
              simp [ih bs hrest]

/-- C10: for every row the normalizer processes, the produced
bond_length_matrix equals the produced bond_order_matrix: both dense
matrices are built from the bond_order vector of the source row, and the
bond_length values never enter either matrix. -/
theorem bond_matrices_from_bond_order (resolve : String → Molecule)
    (df : List QMRow) (scalers : Option AtomScalerBundle)
    (train_smiles : Option (List String)) (i : ℕ)
    (hi : i < (((min_max_normalize_atom_descs resolve df scalers
        train_smiles).map Prod.fst).getD []).length)
    (hdf : i < df.length) :
    ((((min_max_normalize_atom_descs resolve df scalers train_smiles).map
        Prod.fst).getD []).get ⟨i, hi⟩).bond_length_matrix
        = ((((min_max_normalize_atom_descs resolve df scalers
            train_smiles).map Prod.fst).getD []).get ⟨i, hi⟩).bond_order_matrix
      ∧ ((((min_max_normalize_atom_descs resolve df scalers train_smiles).map
          Prod.fst).getD []).get ⟨i, hi⟩).bond_order_matrix
        = bond_to_matrix resolve (df.get ⟨i, hdf⟩).smiles
            (df.get ⟨i, hdf⟩).bond_order
      ∧ ((((min_max_normalize_atom_descs resolve df scalers train_smiles).map
          Prod.fst).getD []).get ⟨i, hi⟩).smiles = (df.get ⟨i, hdf⟩).smiles := by
  revert hi
  unfold min_max_normalize_atom_descs
  cases hm : df.mapM (fun r =>
      min_max_by_atom (get_atoms resolve r.smiles) r.NMR
        (scalers.getD (atomFitScalers resolve df train_smiles)).NMR) with
  | none =>
      intro hi
      simp at hi
  | some nmrCol =>
      intro hi
      have hzl : i < (df.zip nmrCol).length := by
        rw [List.length_zip, mapM_some_length _ _ _ hm, Nat.min_self]
        exact hdf
      simp only [Option.map_some', Option.getD_some, List.get_eq_getElem,
        List.getElem_map, List.getElem_zip]
      exact ⟨rfl, rfl, rfl⟩

def rowCO : QMRow :=
  ⟨"CO", [1, 2, 3], [1, 2, 3], [1, 2, 3], [4, 5, 6], [2, 1], [5, 1]⟩

/-- Witness for C10 on the one-row table of rowCO. -/
theorem bond_matrices_from_bond_order_witness :
    ((((min_max_normalize_atom_descs resolveCOH [rowCO] none none).map
        Prod.fst).getD []).get ⟨0, by decide⟩).bond_length_matrix
        = ((((min_max_normalize_atom_descs resolveCOH [rowCO] none
            none).map Prod.fst).getD []).get ⟨0, by decide⟩).bond_order_matrix
      ∧ ((((min_max_normalize_atom_descs resolveCOH [rowCO] none none).map
          Prod.fst).getD []).get ⟨0, by decide⟩).bond_order_matrix
        = bond_to_matrix resolveCOH (([rowCO] : List QMRow).get
            ⟨0, by decide⟩).smiles
            (([rowCO] : List QMRow).get ⟨0, by decide⟩).bond_order
      ∧ ((((min_max_normalize_atom_descs resolveCOH [rowCO] none none).map
          Prod.fst).getD []).get ⟨0, by decide⟩).smiles
        = (([rowCO] : List QMRow).get ⟨0, by decide⟩).smiles :=
  bond_matrices_from_bond_order resolveCOH [rowCO] none none 0
    (by decide) (by decide)

/-- C4 evaluation at the failing input rowCO, whose bond_order vector is
[2, 1] while its bond_length vector is [5, 1]: the normalizer sets entry
(0, 1) of the bond_length_matrix to 2, the bond_order value of the bond
joining atoms 0 and 1, not to the bond_length value 5 as the claim
requires, because line 56 of post_process.py scatters x with the hard-coded
key bond_order for both matrix columns. -/
theorem bond_length_matrix_not_own_vector :
    ((min_max_normalize_atom_descs resolveCOH [rowCO] none none).map
        (fun p => p.1.map (fun nr => nr.bond_length_matrix.entry 0 1)))
      = some [2]
      ∧ rowCO.bond_length = [5, 1] ∧ (2 : ℚ) ≠ 5 := by
  refine ⟨by decide, by decide, by decide⟩

lemma getD_map_of_lt {α β : Type} [Inhabited α] (f : α → β) (l : List α)
    (i : ℕ) (d : β) (hd : i < l.length) :
    (l.map f).getD i d = f (l.getD i default) := by
  have hi2 : i < (l.map f).length := by simpa using hd
  rw [List.getD_eq_getElem?_getD, List.getElem?_eq_getElem hi2,
    List.getD_eq_getElem?_getD, List.getElem?_eq_getElem hd]
  simp

/-- C7: for each fold the ensemble prediction for each target is the
arithmetic mean of the member prediction vectors; the driver accumulates
exactly one RMSE and one MAE per target per fold, so after k folds each
metric list holds k values, and the final report is the arithmetic mean of
each metric list across the folds. -/
theorem cross_val_driver_report (n : ℕ) (folds : List FoldData) :
    ((cross_val_metrics n folds).1.length = folds.length
        ∧ (cross_val_metrics n folds).2.1.length = folds.length
        ∧ (cross_val_metrics n folds).2.2.1.length = folds.length
        ∧ (cross_val_metrics n folds).2.2.2.length = folds.length)
      ∧ (∀ preds : List (List ℚ), ∀ idx, idx < n →
          (ensembleMean n preds).getD idx 0
            = meanQ (preds.map (fun v => v.getD idx 0)))
      ∧ (∀ i, i < folds.length →
          (cross_val_metrics n folds).1.getD i 0
              = rmse (ensembleMean n (folds.getD i default).predsAE)
                  (folds.getD i default).trueAE
            ∧ (cross_val_metrics n folds).2.1.getD i 0
              = rmse (ensembleMean n (folds.getD i default).predsRE)
                  (folds.getD i default).trueRE
            ∧ (cross_val_metrics n folds).2.2.1.getD i 0
              = mae (ensembleMean n (folds.getD i default).predsAE)
                  (folds.getD i default).trueAE
            ∧ (cross_val_metrics n folds).2.2.2.getD i 0
              = mae (ensembleMean n (folds.getD i default).predsRE)
                  (folds.getD i default).trueRE)
      ∧ (final_report n folds).1
          = (cross_val_metrics n folds).1.sum / (folds.length : ℝ)
      ∧ (final_report n folds).2.1
          = (cross_val_metrics n folds).2.1.sum / (folds.length : ℝ)
      ∧ (final_report n folds).2.2.1
          = (cross_val_metrics n folds).2.2.1.sum / (folds.length : ℚ)
      ∧ (final_report n folds).2.2.2
          = (cross_val_metrics n folds).2.2.2.sum / (folds.length : ℚ) := by
  refine ⟨⟨by simp [cross_val_metrics], by simp [cross_val_metrics],
    by simp [cross_val_metrics], by simp [cross_val_metrics]⟩, ?_, ?_,
    ?_, ?_, ?_, ?_⟩
  · intro preds idx hidx
    unfold ensembleMean meanQ
    rw [getD_map_of_lt _ _ _ _ (by simpa using hidx)]
    have hr : (List.range n).getD idx default = idx := by
      rw [List.getD_eq_getElem?_getD,
        List.getElem?_eq_getElem (by simpa using hidx)]
      simp
    rw [hr, List.length_map]
  · intro i hi
    exact ⟨getD_map_of_lt _ folds i 0 hi, getD_map_of_lt _ folds i 0 hi,
      getD_map_of_lt _ folds i 0 hi, getD_map_of_lt _ folds i 0 hi⟩
  · show meanR (cross_val_metrics n folds).1 = _
    unfold meanR
    simp [cross_val_metrics]
  · show meanR (cross_val_metrics n folds).2.1 = _
    unfold meanR
    simp [cross_val_metrics]
  · show meanQ (cross_val_metrics n folds).2.2.1 = _
    unfold meanQ
    simp [cross_val_metrics]
  · show meanQ (cross_val_metrics n folds).2.2.2 = _
    unfold meanQ
    simp [cross_val_metrics]

end QMGNN
